import Mathlib

/-!
Shallow embedding of the tagged time-series storage engine of
`github.com/masahide/7dtd-stats` (packages `pkg/tsfile` and `pkg/storage`),
together with theorems settling the frozen claims about its specification.

Modelling conventions:
* Instants are integers (`Int`) in fixed time units (seconds); one hour is
  3600 units.  All embedded operations are granularity-independent.
* Go maps `map[string]string` are association lists with pairwise-distinct
  keys; Go map iteration plus `sort.Strings` is modelled by an executable
  lexicographic sort (Go compares strings bytewise over UTF-8, which is
  exactly codepoint-lexicographic order for valid strings).
* Filesystem trees are explicit inductive data; `os.ReadDir` failure is an
  `Option`/`Except` `none`/`error`, I/O results of the underlying handles are
  explicit `Option err` fields.
* The `float64` payload of a point is opaque to every embedded operation
  (the Go code never computes with it); it is modelled as `Int`.
-/

namespace SevenTS

/-! ### Byte-lexicographic string order (Go `sort.Strings` / `<` on strings) -/

/-- Lexicographic order on lists of naturals, as a boolean. -/
def natListLe : List Nat → List Nat → Bool
  | [], _ => true
  | _ :: _, [] => false
  | a :: as, b :: bs => if a < b then true else if b < a then false else natListLe as bs

/-- Codepoints of a string.  For valid UTF-8, lexicographic comparison of
codepoint sequences coincides with Go's bytewise string comparison. -/
def strCodes (s : String) : List Nat := s.data.map Char.toNat

/-- Go string comparison `a <= b` (bytewise lexicographic). -/
def strLe (a b : String) : Bool := natListLe (strCodes a) (strCodes b)

theorem natListLe_total : ∀ a b : List Nat, natListLe a b = true ∨ natListLe b a = true
  | [], _ => Or.inl rfl
  | _ :: _, [] => Or.inr rfl
  | a :: as, b :: bs => by
    by_cases hab : a < b
    · exact Or.inl (by simp [natListLe, hab])
    · by_cases hba : b < a
      · exact Or.inr (by simp [natListLe, hba, Nat.lt_asymm hba])
      · have h := natListLe_total as bs
        rcases h with h | h
        · exact Or.inl (by simp [natListLe, hab, hba, h])
        · exact Or.inr (by simp [natListLe, hab, hba, h])

theorem natListLe_trans :
    ∀ {a b c : List Nat}, natListLe a b = true → natListLe b c = true → natListLe a c = true
  | [], _, _, _, _ => rfl
  | _ :: _, [], _, h, _ => by simp [natListLe] at h
  | _ :: _, _ :: _, [], _, h => by simp [natListLe] at h
  | a :: as, b :: bs, c :: cs, hab, hbc => by
    simp only [natListLe] at hab hbc ⊢
    rcases Nat.lt_trichotomy a b with h1 | h1 | h1
    · rcases Nat.lt_trichotomy b c with h2 | h2 | h2
      · simp [Nat.lt_trans h1 h2]
      · subst h2; simp [h1]
      · simp [Nat.lt_asymm h2, h2] at hbc
    · subst h1
      rcases Nat.lt_trichotomy a c with h2 | h2 | h2
      · simp [h2]
      · subst h2
        simp only [if_neg (lt_irrefl a)] at hab hbc ⊢
        exact natListLe_trans hab hbc
      · simp [Nat.lt_asymm h2, h2] at hbc
    · simp [Nat.lt_asymm h1, h1] at hab

theorem natListLe_antisymm :
    ∀ {a b : List Nat}, natListLe a b = true → natListLe b a = true → a = b
  | [], [], _, _ => rfl
  | [], _ :: _, _, h => by simp [natListLe] at h
  | _ :: _, [], h, _ => by simp [natListLe] at h
  | a :: as, b :: bs, hab, hba => by
    simp only [natListLe] at hab hba
    by_cases h1 : a < b
    · simp [h1, Nat.lt_asymm h1] at hba
    · by_cases h2 : b < a
      · simp [h1, h2] at hab
      · have : a = b := Nat.le_antisymm (Nat.le_of_not_lt h2) (Nat.le_of_not_lt h1)
        subst this
        simp only [if_neg h1, if_neg h2] at hab hba
        have := natListLe_antisymm hab hba
        rw [this]

theorem charToNat_injective {c₁ c₂ : Char} (h : c₁.toNat = c₂.toNat) : c₁ = c₂ := by
  cases c₁; cases c₂
  simp only [Char.toNat] at h
  congr 1
  exact UInt32.ext h

theorem strCodes_injective {a b : String} (h : strCodes a = strCodes b) : a = b := by
  cases a with
  | mk da =>
    cases b with
    | mk db =>
      congr 1
      simpa using List.map_injective_iff.mpr (fun _ _ => charToNat_injective) h

instance strLeTotal : IsTotal String (fun a b => strLe a b = true) :=
  ⟨fun a b => natListLe_total (strCodes a) (strCodes b)⟩

instance strLeTrans : IsTrans String (fun a b => strLe a b = true) :=
  ⟨fun _ _ _ hab hbc => natListLe_trans hab hbc⟩

instance strLeAntisymm : IsAntisymm String (fun a b => strLe a b = true) :=
  ⟨fun _ _ hab hba => strCodes_injective (natListLe_antisymm hab hba)⟩

/-- Model of Go `sort.Strings` (ascending bytewise lexicographic sort). -/
def sortStrings (l : List String) : List String :=
  l.insertionSort (fun a b => strLe a b = true)

/-! ### Tag codec (`Tags.Canonical`, `Tags.Hash` — tffile.go lines 20-56) -/

/-- A Go `map[string]string` tag set, as an association list.  A value of
this type models a Go map when its keys are pairwise distinct. -/
def Tags : Type := List (String × String)

instance : DecidableEq Tags := inferInstanceAs (DecidableEq (List (String × String)))

/-- Keys are pairwise distinct (always true of a Go map). -/
def keysNodup (t : Tags) : Prop := (t.map Prod.fst).Nodup

instance (t : Tags) : Decidable (keysNodup t) :=
  inferInstanceAs (Decidable (t.map Prod.fst).Nodup)

/-- Association-list lookup, modelling Go map indexing `m[k]` (also used for
`sync.Map` lookups keyed by series name). -/
def alookup {β : Type} (k : String) : List (String × β) → Option β
  | [] => none
  | (k', v) :: rest => if k = k' then some v else alookup k rest

/-- Model of `Tags.Canonical` (tffile.go lines 23-42): empty map yields `""`;
otherwise the keys are collected, sorted ascending, and the `k=v` pairs are
joined with `;`. -/
def canonical (t : Tags) : String :=
  if t.isEmpty then ""
  else
    let keys := sortStrings (t.map Prod.fst)
    String.intercalate ";" (keys.map (fun k => k ++ "=" ++ (alookup k t).getD ""))

/-! ### SHA-1 (Go `crypto/sha1`) and the tag hash (tffile.go lines 44-48) -/

/-- Wrap to a 32-bit word. -/
def w32 (n : Nat) : Nat := n % 4294967296

/-- Left-rotate a 32-bit word by `k`. -/
def rotl (k w : Nat) : Nat := w32 ((w <<< k) ||| (w >>> (32 - k)))

/-- UTF-8 encoding of one codepoint (Go `[]byte(string)` byte sequence). -/
def utf8Char (c : Nat) : List Nat :=
  if c < 0x80 then [c]
  else if c < 0x800 then [0xC0 ||| (c >>> 6), 0x80 ||| (c &&& 0x3F)]
  else if c < 0x10000 then
    [0xE0 ||| (c >>> 12), 0x80 ||| ((c >>> 6) &&& 0x3F), 0x80 ||| (c &&& 0x3F)]
  else
    [0xF0 ||| (c >>> 18), 0x80 ||| ((c >>> 12) &&& 0x3F),
     0x80 ||| ((c >>> 6) &&& 0x3F), 0x80 ||| (c &&& 0x3F)]

/-- UTF-8 bytes of a string. -/
def utf8Bytes (s : String) : List Nat := ((s.data.map Char.toNat).map utf8Char).flatten

/-- Big-endian 8-byte encoding of a natural. -/
def be64 (n : Nat) : List Nat :=
  [(n >>> 56) % 256, (n >>> 48) % 256, (n >>> 40) % 256, (n >>> 32) % 256,
   (n >>> 24) % 256, (n >>> 16) % 256, (n >>> 8) % 256, n % 256]

/-- SHA-1 message padding: append `0x80`, zero bytes to 56 mod 64, then the
big-endian 64-bit bit length. -/
def sha1Pad (msg : List Nat) : List Nat :=
  msg ++ 0x80 :: List.replicate ((119 - msg.length % 64) % 64) 0 ++ be64 (8 * msg.length)

/-- The sixteen 32-bit big-endian words of one 64-byte block. -/
def sha1BlockWords (b : List Nat) : Array Nat :=
  ((List.range 16).map (fun j =>
    w32 ((b.getD (4 * j) 0 <<< 24) ||| (b.getD (4 * j + 1) 0 <<< 16) |||
         (b.getD (4 * j + 2) 0 <<< 8) ||| b.getD (4 * j + 3) 0))).toArray

/-- Expand the 16 block words to the 80-word message schedule. -/
def sha1Expand (ws : Array Nat) : Array Nat :=
  (List.range 64).foldl
    (fun a j =>
      let i := j + 16
      a.push (rotl 1 ((a.getD (i - 3) 0) ^^^ (a.getD (i - 8) 0) ^^^
                      (a.getD (i - 14) 0) ^^^ (a.getD (i - 16) 0))))
    ws

/-- Round function and constant for round `i`. -/
def sha1FK (i b c d : Nat) : Nat × Nat :=
  if i < 20 then ((b &&& c) ||| ((b ^^^ 0xFFFFFFFF) &&& d), 0x5A827999)
  else if i < 40 then (b ^^^ c ^^^ d, 0x6ED9EBA1)
  else if i < 60 then ((b &&& c) ||| (b &&& d) ||| (c &&& d), 0x8F1BBCDC)
  else (b ^^^ c ^^^ d, 0xCA62C1D6)

/-- One 64-byte block step of SHA-1 on the five-word state. -/
def sha1Block (h : Nat × Nat × Nat × Nat × Nat) (block : List Nat) :
    Nat × Nat × Nat × Nat × Nat :=
  let ws := sha1Expand (sha1BlockWords block)
  let (h0, h1, h2, h3, h4) := h
  let st := (List.range 80).foldl
    (fun st i =>
      let (a, b, c, d, e) := st
      let (f, k) := sha1FK i b c d
      let temp := w32 (rotl 5 a + f + e + k + ws.getD i 0)
      (temp, a, rotl 30 b, c, d))
    (h0, h1, h2, h3, h4)
  let (a, b, c, d, e) := st
  (w32 (h0 + a), w32 (h1 + b), w32 (h2 + c), w32 (h3 + d), w32 (h4 + e))

/-- Big-endian 4-byte encoding of a 32-bit word. -/
def be32 (n : Nat) : List Nat := [(n >>> 24) % 256, (n >>> 16) % 256, (n >>> 8) % 256, n % 256]

/-- SHA-1 digest (20 bytes) of a byte sequence. -/
def sha1 (msg : List Nat) : List Nat :=
  let padded := sha1Pad msg
  let blocks := (List.range (padded.length / 64)).map
    (fun i => (padded.drop (64 * i)).take 64)
  let (h0, h1, h2, h3, h4) := blocks.foldl sha1Block
    (0x67452301, 0xEFCDAB89, 0x98BADCFE, 0x10325476, 0xC3D2E1F0)
  be32 h0 ++ be32 h1 ++ be32 h2 ++ be32 h3 ++ be32 h4

/-- Lowercase hex digit. -/
def hexDigit (n : Nat) : Char := if n < 10 then Char.ofNat (48 + n) else Char.ofNat (87 + n)

/-- Lowercase hex encoding of one byte (Go `hex.EncodeToString`). -/
def hexByte (b : Nat) : String := String.mk [hexDigit (b / 16), hexDigit (b % 16)]

/-- Model of `Tags.Hash` (tffile.go lines 44-48): hex encoding of the first
8 bytes of the SHA-1 digest of the canonical string. -/
def tagsHash (t : Tags) : String :=
  String.join (((sha1 (utf8Bytes (canonical t))).take 8).map hexByte)

/-! ### Permutation invariance of the canonical form -/

theorem alookup_eq_of_perm {t₁ t₂ : List (String × String)} (hp : t₁.Perm t₂)
    (hn : (t₁.map Prod.fst).Nodup) (k : String) : alookup k t₁ = alookup k t₂ := by
  induction hp with
  | nil => rfl
  | cons x _ ih =>
    simp only [List.map_cons, List.nodup_cons] at hn
    simp only [alookup]
    rw [ih hn.2]
  | swap x y l =>
    simp only [List.map_cons, List.nodup_cons, List.mem_cons] at hn
    have hxy : y.1 ≠ x.1 := fun h => hn.1 (Or.inl h)
    simp only [alookup]
    by_cases h1 : k = y.1
    · subst h1
      rw [if_pos rfl, if_neg hxy, if_pos rfl]
    · by_cases h2 : k = x.1
      · rw [if_neg h1, if_pos h2, if_pos h2]
      · rw [if_neg h1, if_neg h2, if_neg h2, if_neg h1]
  | trans h12 _ ih1 ih2 =>
    rw [ih1 hn, ih2 ((h12.map Prod.fst).nodup_iff.mp hn)]

theorem canonical_eq_of_perm {t₁ t₂ : Tags} (hp : List.Perm t₁ t₂) (hn : keysNodup t₁) :
    canonical t₁ = canonical t₂ := by
  have hemp : t₁.isEmpty = t₂.isEmpty := by
    cases t₁ with
    | nil => simp [hp.nil_eq]
    | cons x l =>
      cases t₂ with
      | nil => exact absurd hp.symm.nil_eq (by simp)
      | cons y m => rfl
  have hkeys : (sortStrings (t₁.map Prod.fst)) = (sortStrings (t₂.map Prod.fst)) := by
    apply List.eq_of_perm_of_sorted (r := fun a b => strLe a b = true)
    · exact (List.perm_insertionSort _ _).trans ((hp.map Prod.fst).trans
        (List.perm_insertionSort _ _).symm)
    · exact List.sorted_insertionSort _ _
    · exact List.sorted_insertionSort _ _
  unfold canonical
  rw [hemp, hkeys]
  by_cases he : t₂.isEmpty
  · simp [he]
  · simp only [he, if_false]
    have hmap :
        (sortStrings (t₂.map Prod.fst)).map (fun k => k ++ "=" ++ (alookup k t₁).getD "") =
        (sortStrings (t₂.map Prod.fst)).map (fun k => k ++ "=" ++ (alookup k t₂).getD "") := by
      apply List.map_congr_left
      intro k _
      rw [alookup_eq_of_perm hp hn k]
    rw [hmap]

/-! ### Claim C9 -/

/-- C9: `Canonical` returns `""` on the empty tag set and otherwise joins the
`key=value` pairs with `;` with keys sorted ascending (so
`Canonical {b:2, a:1} = "a=1;b=2"`), and consequently `Hash` — the hex of the
first 8 bytes of the SHA-1 of the canonical string — is identical for any two
maps with the same entries regardless of insertion order. -/
theorem canonical_and_hash_order_independent :
    canonical ([] : Tags) = "" ∧
    canonical [("b", "2"), ("a", "1")] = "a=1;b=2" ∧
    ∀ t₁ t₂ : Tags, keysNodup t₁ → List.Perm t₁ t₂ → tagsHash t₁ = tagsHash t₂ := by
  refine ⟨rfl, by decide, fun t₁ t₂ hn hp => ?_⟩
  unfold tagsHash
  rw [canonical_eq_of_perm hp hn]

/-- Witness for C9 at concrete tag maps in the two insertion orders. -/
theorem canonical_and_hash_order_independent_witness :
    keysNodup [("b", "2"), ("a", "1")] ∧
    List.Perm [("b", "2"), ("a", "1")] [("a", "1"), ("b", "2")] ∧
    tagsHash [("b", "2"), ("a", "1")] = tagsHash [("a", "1"), ("b", "2")] :=
  ⟨by decide, by decide,
    canonical_and_hash_order_independent.2.2 _ _ (by decide) (by decide)⟩

/-- A decoded data point.  `v` models the opaque float64 payload. -/
structure Point where
  t : Int
  v : Int
  tags : List (String × String)
deriving DecidableEq, Repr

/-- Go `t.Truncate(time.Hour)` on an instant (floor to the hour). -/
def hourStart (t : Int) : Int := 3600 * (t.fdiv 3600)

/-! ### Segment writer (tffile.go lines 168-269)

A writer's open segment owns a buffered writer, a gzip compressor and a file
handle.  The I/O outcomes of the underlying calls are modelled as explicit
`Option String` fields (`none` = success, `some e` = the error `e`); the
outcomes of the calls a rotation makes are collected in a `RotateIO`.  The
writer's file-name timezone is the default UTC (hour buckets via
`hourStart`). -/

/-- First element of a list of operation outcomes that is an error. -/
def firstErr : List (Option String) → Option String
  | [] => none
  | some e :: _ => some e
  | none :: rest => firstErr rest

/-- Outcomes of the underlying handle operations for the open segment. -/
structure SegHandles where
  bwFlushE : Option String
  gzFlushE : Option String
  fSyncE : Option String
  gzCloseE : Option String
  fCloseE : Option String
deriving DecidableEq, Repr

/-- Writer state: `seg = none` models `w.enc == nil` (and `bw`, `gz`, `f` all
nil); `curHour`, `pending` and `flushEvery` mirror the writer's rotation and
flush-threshold fields; `closedOnce` records whether `closeOnce` fired. -/
structure WriterSt where
  seg : Option SegHandles
  curHour : Int
  pending : Nat
  flushEvery : Nat
  closedOnce : Bool
deriving DecidableEq, Repr

/-- Outcomes of the calls made by `writer.rotate` for the new segment:
directory creation, file open, compressor construction, and the handles of
the newly opened segment. -/
structure RotateIO where
  mkdirE : Option String
  openE : Option String
  gzNewE : Option String
  newSeg : SegHandles
deriving DecidableEq, Repr

/-- Model of `writer.flushSync` (tffile.go lines 218-233): flush the buffered
writer, then the compressor, then sync the file, returning the first error.
With no open segment all three handles are nil and each step is skipped. -/
def flushSync (w : WriterSt) : Option String :=
  match w.seg with
  | none => none
  | some h =>
    match h.bwFlushE with
    | some e => some e
    | none =>
      match h.gzFlushE with
      | some e => some e
      | none => h.fSyncE

/-- Model of `writer.closeCurrent` (tffile.go lines 235-248): with no open
segment (`w.enc == nil`) it returns nil; otherwise it runs
`_ = w.flushSync()`, `_ = w.gz.Close()`, `_ = w.f.Close()` — all three results
discarded — nils the handles, and returns nil. -/
def closeCurrent (w : WriterSt) : Option String × WriterSt :=
  match w.seg with
  | none => (none, w)
  | some _ => (none, { w with seg := none })

/-- Model of `writer.rotate` (tffile.go lines 194-216): finalize the previous
segment via `closeCurrent` (whose result is checked but is always nil), set
the current hour, then create the directory, open the file and construct the
compressor, returning the first error of those three; on success the new
segment's handles are installed. -/
def rotate (hour : Int) (io : RotateIO) (w : WriterSt) : Option String × WriterSt :=
  match (closeCurrent w).1 with
  | some e => (some e, (closeCurrent w).2)
  | none =>
    let w2 := { (closeCurrent w).2 with curHour := hour }
    match io.mkdirE with
    | some e => (some e, w2)
    | none =>
      match io.openE with
      | some e => (some e, w2)
      | none =>
        match io.gzNewE with
        | some e => (some e, w2)
        | none => (none, { w2 with seg := some io.newSeg })

/-- The tail of `writer.Append` after the rotation step (tffile.go lines
181-191): propagate a rotation error, else an encoder error, else bump the
pending counter and, when the flush-every threshold is set and reached, flush
synchronously (propagating its error) and reset the counter. -/
def appendAfterRotate (encE : Option String) :
    Option String × WriterSt → Option String × WriterSt
  | (some e, w1) => (some e, w1)
  | (none, w1) =>
    match encE with
    | some e => (some e, w1)
    | none =>
      if 0 < w1.flushEvery ∧ w1.flushEvery ≤ w1.pending + 1 then
        match flushSync { w1 with pending := w1.pending + 1 } with
        | some e => (some e, { w1 with pending := w1.pending + 1 })
        | none => (none, { w1 with pending := 0 })
      else (none, { w1 with pending := w1.pending + 1 })

/-- Model of `writer.Append` (tffile.go lines 168-192) under the writer lock:
rotate when no segment is open or the point's hour bucket differs, then run
the encode / pending / threshold-flush tail on the resulting state. -/
def writerAppend (p : Point) (io : RotateIO) (encE : Option String)
    (w : WriterSt) : Option String × WriterSt :=
  appendAfterRotate encE
    (if w.seg = none ∨ hourStart p.t ≠ w.curHour
     then rotate (hourStart p.t) io w else (none, w))

/-- Model of `writer.Close` (tffile.go lines 250-269): under `closeOnce` the
body runs at most once (ticker/goroutine shutdown has no error path) and
`cerr` is the `closeCurrent` result; later calls return the zero value nil. -/
def writerClose (w : WriterSt) : Option String × WriterSt :=
  if w.closedOnce then (none, w)
  else
    let (e, w2) := closeCurrent w
    (e, { w2 with closedOnce := true })

/-! ### Router flush/close (tffile.go lines 311-332)

The router's writers are modelled by the list of their `flushSync` (resp.
`Close`) outcomes in iteration order; the model returns the error reported to
the caller together with how many writers the loop actually reached. -/

/-- Model of `Router.Flush` (tffile.go lines 311-320): call `flushSync` on
each writer in turn, returning on the first error.  The second component
counts the writers whose `flushSync` was actually invoked. -/
def routerFlush : List (Option String) → Option String × Nat
  | [] => (none, 0)
  | some e :: _ => (some e, 1)
  | none :: rest => ((routerFlush rest).1, (routerFlush rest).2 + 1)

/-- Model of `Router.Close` (tffile.go lines 322-332): close every writer,
remembering only the first error.  The second component counts the writers
whose `Close` was invoked (always all of them). -/
def routerClose : List (Option String) → Option String × Nat
  | [] => (none, 0)
  | some e :: rest => (some e, (routerClose rest).2 + 1)
  | none :: rest => ((routerClose rest).1, (routerClose rest).2 + 1)

/-! ### Claim C1 (corrected) -/

/-- Counterexample to C1 as stated: with two writers whose `flushSync`
outcomes are `[some "boom", none]`, `Router.Flush` stops after the first
writer — it returns the first error but never attempts the second writer,
contradicting "it still attempts to flush all remaining writers". -/
theorem routerFlush_short_circuits :
    routerFlush [some "boom", none] = (some "boom", 1) ∧
    (routerFlush [some "boom", none]).2 ≠ [some "boom", none].length := by
  decide

/-- C1 amended: `Router.Flush` flushes the owned writers in iteration order
and returns the first error encountered, short-circuiting — writers after the
first failing one are not flushed (while all writers before it are).  When
every flush succeeds it flushes all writers and returns nil. -/
theorem routerFlush_first_error_short_circuit :
    (∀ ws : List (Option String), (∀ x ∈ ws, x = none) →
      routerFlush ws = (none, ws.length)) ∧
    (∀ (pre post : List (Option String)) (e : String), (∀ x ∈ pre, x = none) →
      routerFlush (pre ++ some e :: post) = (some e, pre.length + 1)) := by
  constructor
  · intro ws hws
    induction ws with
    | nil => rfl
    | cons x rest ih =>
      have hx : x = none := hws x (List.mem_cons_self x rest)
      subst hx
      simp [routerFlush, ih (fun y hy => hws y (List.mem_cons_of_mem _ hy))]
  · intro pre post e hpre
    induction pre with
    | nil => rfl
    | cons x rest ih =>
      have hx : x = none := hpre x (List.mem_cons_self x rest)
      subst hx
      simp [routerFlush, ih (fun y hy => hpre y (List.mem_cons_of_mem _ hy))]

/-- Witness for the amended C1 at concrete writer lists. -/
theorem routerFlush_first_error_short_circuit_witness :
    (∀ x ∈ ([none, none] : List (Option String)), x = none) ∧
    routerFlush [none, none] = (none, 2) ∧
    (∀ x ∈ ([none] : List (Option String)), x = none) ∧
    routerFlush ([none] ++ some "boom" :: [none]) = (some "boom", 2) :=
  ⟨by decide, routerFlush_first_error_short_circuit.1 [none, none] (by decide),
   by decide, by
    have h := routerFlush_first_error_short_circuit.2 [none] [none] "boom" (by decide)
    simpa using h⟩

/-! ### Claim C2 (corrected) -/

/-- Segment handles whose buffered flush fails with "disk full" while every
other underlying call succeeds. -/
def failingHandles : SegHandles :=
  { bwFlushE := some "disk full", gzFlushE := none, fSyncE := none,
    gzCloseE := none, fCloseE := none }

/-- A not-yet-closed writer with an open segment backed by `failingHandles`. -/
def failingWriter : WriterSt :=
  { seg := some failingHandles, curHour := 0, pending := 0, flushEvery := 0,
    closedOnce := false }

/-- Counterexample to C2 as stated: a writer with an open segment whose
buffered flush fails with "disk full".  During `Close()` the finalization
encounters that error (`flushSync` reports it) and yet `Close()` returns nil,
because `closeCurrent` discards every error of the finalization sequence. -/
theorem writerClose_swallows_finalize_error :
    flushSync failingWriter = some "disk full" ∧
    (writerClose failingWriter).1 = none := by
  decide

theorem flushSync_firstErr (w : WriterSt) (h : SegHandles) (hs : w.seg = some h) :
    flushSync w = firstErr [h.bwFlushE, h.gzFlushE, h.fSyncE] := by
  have hstep : flushSync w =
      (match h.bwFlushE with
       | some e => some e
       | none =>
         match h.gzFlushE with
         | some e => some e
         | none => h.fSyncE) := by
    unfold flushSync
    rw [hs]
  rw [hstep]
  cases h.bwFlushE with
  | some e => rfl
  | none =>
    cases h.gzFlushE with
    | some e => rfl
    | none => cases h.fSyncE <;> rfl

theorem rotate_fst (hour : Int) (io : RotateIO) (w : WriterSt) :
    (rotate hour io w).1 = firstErr [io.mkdirE, io.openE, io.gzNewE] := by
  unfold rotate closeCurrent
  obtain ⟨seg, curHour, pending, flushEvery, closedOnce⟩ := w
  cases seg with
  | none =>
    cases io.mkdirE with
    | some e => rfl
    | none =>
      cases io.openE with
      | some e => rfl
      | none => cases io.gzNewE <;> rfl
  | some h =>
    cases io.mkdirE with
    | some e => rfl
    | none =>
      cases io.openE with
      | some e => rfl
      | none => cases io.gzNewE <;> rfl

theorem rotate_ok (hour : Int) (io : RotateIO) (w : WriterSt)
    (h1 : io.mkdirE = none) (h2 : io.openE = none) (h3 : io.gzNewE = none) :
    rotate hour io w
      = (none, { w with seg := some io.newSeg, curHour := hour }) := by
  unfold rotate closeCurrent
  obtain ⟨seg, curHour, pending, flushEvery, closedOnce⟩ := w
  cases seg <;> rw [h1, h2, h3]

theorem flushSync_pending (w1 : WriterSt) (n : Nat) :
    flushSync { w1 with pending := n } = flushSync w1 := by
  obtain ⟨seg, curHour, pending, flushEvery, closedOnce⟩ := w1
  rfl

theorem appendAfterRotate_err (encE : Option String) (e : String) (w1 : WriterSt) :
    (appendAfterRotate encE (some e, w1)).1 = some e := rfl

theorem appendAfterRotate_enc (e : String) (w1 : WriterSt) :
    (appendAfterRotate (some e) (none, w1)).1 = some e := rfl

theorem appendAfterRotate_none_thr (w1 : WriterSt)
    (hthr : 0 < w1.flushEvery ∧ w1.flushEvery ≤ w1.pending + 1) :
    (appendAfterRotate none (none, w1)).1
      = flushSync { w1 with pending := w1.pending + 1 } := by
  simp only [appendAfterRotate]
  rw [if_pos hthr]
  cases hf : flushSync { w1 with pending := w1.pending + 1 } <;> rfl

theorem appendAfterRotate_none_nothr (w1 : WriterSt)
    (hthr : ¬(0 < w1.flushEvery ∧ w1.flushEvery ≤ w1.pending + 1)) :
    (appendAfterRotate none (none, w1)).1 = none := by
  simp only [appendAfterRotate]
  rw [if_neg hthr]

/-- C2 corrected: the write-path operations return their own first I/O error
to the immediate caller — `flushSync` the first error among buffered flush,
compressor flush and file sync; `rotate` the first error among directory
creation, file open and compressor construction; `Append` the rotation error
if rotation was needed, else the encoder error, else (when the flush-every
threshold is set and reached) the synchronous-flush error, else nil — but
segment finalization never propagates an error: `closeCurrent` discards the
buffered-flush, compressor-close and file-close failures and always returns
nil, both when rotation finalizes the previous segment during `Append` (the
rotation result never reflects the previous segment's handles) and when
`Close()` finalizes the open segment, so `Close()` returns nil even when
finalization fails. -/
theorem writer_errors_propagate_except_finalization :
    (∀ (w : WriterSt) (h : SegHandles), w.seg = some h →
      flushSync w = firstErr [h.bwFlushE, h.gzFlushE, h.fSyncE]) ∧
    (∀ (hour : Int) (io : RotateIO) (w : WriterSt),
      (rotate hour io w).1 = firstErr [io.mkdirE, io.openE, io.gzNewE]) ∧
    (∀ (p : Point) (io : RotateIO) (encE : Option String) (w : WriterSt)
        (e : String), (w.seg = none ∨ hourStart p.t ≠ w.curHour) →
      (rotate (hourStart p.t) io w).1 = some e →
      (writerAppend p io encE w).1 = some e) ∧
    (∀ (p : Point) (io : RotateIO) (w : WriterSt) (e : String),
      io.mkdirE = none → io.openE = none → io.gzNewE = none →
      (writerAppend p io (some e) w).1 = some e) ∧
    (∀ (p : Point) (io : RotateIO) (w : WriterSt),
      ¬(w.seg = none ∨ hourStart p.t ≠ w.curHour) →
      (0 < w.flushEvery ∧ w.flushEvery ≤ w.pending + 1) →
      (writerAppend p io none w).1 = flushSync w) ∧
    (∀ (p : Point) (io : RotateIO) (w : WriterSt),
      (w.seg = none ∨ hourStart p.t ≠ w.curHour) →
      io.mkdirE = none → io.openE = none → io.gzNewE = none →
      (0 < w.flushEvery ∧ w.flushEvery ≤ w.pending + 1) →
      (writerAppend p io none w).1
        = firstErr [io.newSeg.bwFlushE, io.newSeg.gzFlushE, io.newSeg.fSyncE]) ∧
    (∀ (p : Point) (io : RotateIO) (w : WriterSt),
      io.mkdirE = none → io.openE = none → io.gzNewE = none →
      ¬(0 < w.flushEvery ∧ w.flushEvery ≤ w.pending + 1) →
      (writerAppend p io none w).1 = none) ∧
    (∀ w : WriterSt, (closeCurrent w).1 = none) ∧
    (∀ w : WriterSt, (writerClose w).1 = none) := by
  refine ⟨flushSync_firstErr, rotate_fst,
    fun p io encE w e hrot hre => ?_, fun p io w e h1 h2 h3 => ?_,
    fun p io w hrot hthr => ?_, fun p io w hrot h1 h2 h3 hthr => ?_,
    fun p io w h1 h2 h3 hthr => ?_, fun w => ?_, fun w => ?_⟩
  · unfold writerAppend
    rw [if_pos hrot]
    rcases hr : rotate (hourStart p.t) io w with ⟨o, w1⟩
    rw [hr] at hre
    cases o with
    | some e' =>
      rw [appendAfterRotate_err]
      exact hre
    | none => exact Option.noConfusion hre
  · unfold writerAppend
    by_cases hrot : w.seg = none ∨ hourStart p.t ≠ w.curHour
    · rw [if_pos hrot, rotate_ok (hourStart p.t) io w h1 h2 h3, appendAfterRotate_enc]
    · rw [if_neg hrot, appendAfterRotate_enc]
  · unfold writerAppend
    rw [if_neg hrot, appendAfterRotate_none_thr w hthr, flushSync_pending]
  · unfold writerAppend
    rw [if_pos hrot, rotate_ok (hourStart p.t) io w h1 h2 h3]
    have hW := appendAfterRotate_none_thr
      { w with
          seg := some io.newSeg, curHour := hourStart p.t } hthr
    rw [hW, flushSync_pending]
    exact flushSync_firstErr _ io.newSeg rfl
  · unfold writerAppend
    by_cases hrot : w.seg = none ∨ hourStart p.t ≠ w.curHour
    · rw [if_pos hrot, rotate_ok (hourStart p.t) io w h1 h2 h3]
      have hW := appendAfterRotate_none_nothr
        { w with
            seg := some io.newSeg, curHour := hourStart p.t } hthr
      rw [hW]
    · rw [if_neg hrot, appendAfterRotate_none_nothr w hthr]
  · unfold closeCurrent
    cases w.seg <;> rfl
  · unfold writerClose
    by_cases hc : w.closedOnce
    · simp [hc]
    · simp only [hc, if_false]
      unfold closeCurrent
      cases hs : w.seg <;> rfl

/-- Witness for the corrected C2: the concrete failing writer's flush reports
the disk-full error, a rotation away from it succeeds (the previous segment's
finalization failure is swallowed), an encoder error propagates through
Append, and Close still returns nil. -/
theorem writer_errors_propagate_except_finalization_witness :
    failingWriter.seg = some failingHandles ∧
    flushSync failingWriter
      = firstErr [some "disk full", none, none] ∧
    (rotate 3600 ⟨none, none, none, failingHandles⟩ failingWriter).1
      = firstErr [none, none, none] ∧
    ((⟨7200, 1, []⟩ : Point).t = 7200 ∧
      (failingWriter.seg = none ∨ hourStart 7200 ≠ failingWriter.curHour)) ∧
    (writerAppend ⟨7200, 1, []⟩ ⟨none, none, none, failingHandles⟩
      (some "encode fail") failingWriter).1 = some "encode fail" ∧
    (writerClose failingWriter).1 = none :=
  ⟨rfl,
   writer_errors_propagate_except_finalization.1 failingWriter failingHandles rfl,
   writer_errors_propagate_except_finalization.2.1 3600
     ⟨none, none, none, failingHandles⟩ failingWriter,
   ⟨rfl, by decide⟩,
   writer_errors_propagate_except_finalization.2.2.2.1 ⟨7200, 1, []⟩
     ⟨none, none, none, failingHandles⟩ failingWriter "encode fail" rfl rfl rfl,
   writer_errors_propagate_except_finalization.2.2.2.2.2.2.2.2 failingWriter⟩

/-! ### Range scan (`ScanRange` / `scanTagDir` / `scanFile`, tffile.go lines 338-414)

The series directory is `none` when `os.ReadDir` fails (including a missing
directory), otherwise the list of its entries.  Each tag-hash directory is a
finite map from UTC hour-start to the decoded point list of the segment file
for that hour; a missing key models the `os.Stat` failure for that hour's
path.  The per-point callback is an arbitrary state-passing function
`σ → Point → σ × Bool` (false = stop), which models any deterministic Go
closure. -/

/-- The hour buckets visited by the scan loop: `from.Truncate(Hour)`,
stepping one hour while not after `to` (tffile.go line 367). -/
def hourSeq (lo hi : Int) : List Int :=
  (List.range ((hi - hourStart lo).toNat / 3600 + 1)).map
    (fun i => hourStart lo + 3600 * i)

/-- One entry of the series directory: a tag-hash directory (or a stray
non-directory entry, which the scan skips). -/
structure TagDirEnt where
  isDir : Bool
  files : List (Int × List Point)
deriving DecidableEq, Repr

/-- Lookup of the segment file for an hour bucket; `none` models a failing
`os.Stat` (missing file). -/
def hlookup (h : Int) : List (Int × List Point) → Option (List Point)
  | [] => none
  | (h', ps) :: rest => if h = h' then some ps else hlookup h rest

/-- Model of `scanFile` (tffile.go lines 383-412) on the decoded point stream
of one segment file: skip points outside `[lo, hi]`, feed the rest to the
callback, stop on a false continue-flag (`errEarlyStop`).  Returns the final
callback state, the points passed to the callback, and the continue-flag
(`false` = early stop). -/
def scanFilePts {σ : Type} (lo hi : Int) (fn : σ → Point → σ × Bool) (s : σ) :
    List Point → σ × List Point × Bool
  | [] => (s, [], true)
  | p :: ps =>
    if p.t < lo ∨ hi < p.t then scanFilePts lo hi fn s ps
    else
      let r := fn s p
      if r.2 then
        let q := scanFilePts lo hi fn r.1 ps
        (q.1, p :: q.2.1, q.2.2)
      else (r.1, [p], false)

/-- Model of the hour loop of `scanTagDir` (tffile.go lines 365-381) over an
explicit list of hour buckets: missing files are skipped, an early stop from
`scanFile` propagates. -/
def scanHours {σ : Type} (lo hi : Int) (fn : σ → Point → σ × Bool)
    (files : List (Int × List Point)) (s : σ) : List Int → σ × Bool
  | [] => (s, true)
  | h :: hs =>
    match hlookup h files with
    | none => scanHours lo hi fn files s hs
    | some ps =>
      let q := scanFilePts lo hi fn s ps
      if q.2.2 then scanHours lo hi fn files q.1 hs else (q.1, false)

/-- Model of `scanTagDir`: the hour loop over the buckets spanning
`[lo.truncate, hi]`. -/
def scanTagDir {σ : Type} (lo hi : Int) (fn : σ → Point → σ × Bool)
    (td : TagDirEnt) (s : σ) : σ × Bool :=
  scanHours lo hi fn td.files s (hourSeq lo hi)

/-- Model of the tag-hash directory loop of `ScanRange` (tffile.go lines
350-361): skip non-directories, propagate an early stop. -/
def scanDirs {σ : Type} (lo hi : Int) (fn : σ → Point → σ × Bool) (s : σ) :
    List TagDirEnt → σ × Bool
  | [] => (s, true)
  | d :: ds =>
    if d.isDir then
      let q := scanTagDir lo hi fn d s
      if q.2 then scanDirs lo hi fn q.1 ds else (q.1, false)
    else scanDirs lo hi fn s ds

/-- Model of `ScanRange` (tffile.go lines 338-363).  `root = none` models a
failing `os.ReadDir` of the series directory.  Early stop and normal
completion both return the callback state without error (`return nil`). -/
def scanRange {σ : Type} (root : Option (List TagDirEnt)) (lo hi : Int)
    (fn : σ → Point → σ × Bool) (s : σ) : Except String σ :=
  if hi < lo then .error "invalid range"
  else
    match root with
    | none => .error "series directory read failed"
    | some ents => .ok (scanDirs lo hi fn s ents).1

/-! ### Claim C4 -/

/-- C4: `ScanRange` errors when `to < from`; it errors when the series
directory cannot be enumerated (missing series directory is an error, not an
empty result); a missing segment file for an hour bucket inside the range is
skipped — the scan continues identically — and a readable series directory
never produces an error at all. -/
theorem scanRange_error_conditions :
    (∀ (σ : Type) (root : Option (List TagDirEnt)) (lo hi : Int)
        (fn : σ → Point → σ × Bool) (s : σ), hi < lo →
      scanRange root lo hi fn s = .error "invalid range") ∧
    (∀ (σ : Type) (lo hi : Int) (fn : σ → Point → σ × Bool) (s : σ), ¬hi < lo →
      scanRange none lo hi fn s = .error "series directory read failed") ∧
    (∀ (σ : Type) (lo hi : Int) (fn : σ → Point → σ × Bool)
        (files : List (Int × List Point)) (s : σ) (h : Int) (hs : List Int),
      hlookup h files = none →
      scanHours lo hi fn files s (h :: hs) = scanHours lo hi fn files s hs) ∧
    (∀ (σ : Type) (lo hi : Int) (fn : σ → Point → σ × Bool)
        (ents : List TagDirEnt) (s : σ), ¬hi < lo →
      scanRange (some ents) lo hi fn s = .ok (scanDirs lo hi fn s ents).1) := by
  refine ⟨fun σ root lo hi fn s h => ?_, fun σ lo hi fn s h => ?_,
    fun σ lo hi fn files s h hs hmiss => ?_, fun σ lo hi fn ents s h => ?_⟩
  · unfold scanRange
    rw [if_pos h]
  · unfold scanRange
    rw [if_neg h]
  · conv_lhs => rw [scanHours]
    rw [hmiss]
  · unfold scanRange
    rw [if_neg h]

/-- Witness for C4 at concrete scans over a one-point store. -/
theorem scanRange_error_conditions_witness :
    ((5 : Int) < 7 ∧
      scanRange (σ := Nat) (some []) 7 5 (fun n _ => (n + 1, true)) 0
        = .error "invalid range") ∧
    (¬(7 : Int) < 5 ∧
      scanRange (σ := Nat) none 5 7 (fun n _ => (n + 1, true)) 0
        = .error "series directory read failed") ∧
    (hlookup 3600 [(7200, [⟨7200, 1, []⟩])] = none ∧
      scanHours (σ := Nat) 0 7200 (fun n _ => (n + 1, true))
        [(7200, [⟨7200, 1, []⟩])] 0 [3600, 7200]
        = scanHours (σ := Nat) 0 7200 (fun n _ => (n + 1, true))
            [(7200, [⟨7200, 1, []⟩])] 0 [7200]) ∧
    (¬(7200 : Int) < 0 ∧
      scanRange (σ := Nat) (some [⟨true, [(7200, [⟨7200, 1, []⟩])]⟩]) 0 7200
          (fun n _ => (n + 1, true)) 0
        = .ok (scanDirs (σ := Nat) 0 7200 (fun n _ => (n + 1, true)) 0
            [⟨true, [(7200, [⟨7200, 1, []⟩])]⟩]).1) :=
  ⟨⟨by decide, scanRange_error_conditions.1 Nat (some []) 7 5 _ 0 (by decide)⟩,
   ⟨by decide, scanRange_error_conditions.2.1 Nat 5 7 _ 0 (by decide)⟩,
   ⟨by decide, scanRange_error_conditions.2.2.1 Nat 0 7200 _ _ 0 3600 [7200] (by decide)⟩,
   ⟨by decide, scanRange_error_conditions.2.2.2 Nat 0 7200 _ _ 0 (by decide)⟩⟩

/-! ### Unfolding equations for the scan functions -/

theorem scanFilePts_cons {σ : Type} (lo hi : Int) (fn : σ → Point → σ × Bool)
    (s : σ) (p : Point) (ps : List Point) :
    scanFilePts lo hi fn s (p :: ps) =
      if p.t < lo ∨ hi < p.t then scanFilePts lo hi fn s ps
      else if (fn s p).2 then
        ((scanFilePts lo hi fn (fn s p).1 ps).1,
         p :: (scanFilePts lo hi fn (fn s p).1 ps).2.1,
         (scanFilePts lo hi fn (fn s p).1 ps).2.2)
      else ((fn s p).1, [p], false) := by
  rw [scanFilePts]

theorem scanHours_cons_none {σ : Type} (lo hi : Int) (fn : σ → Point → σ × Bool)
    (files : List (Int × List Point)) (s : σ) (h : Int) (hs : List Int)
    (hf : hlookup h files = none) :
    scanHours lo hi fn files s (h :: hs) = scanHours lo hi fn files s hs := by
  conv_lhs => rw [scanHours]
  rw [hf]

theorem scanHours_cons_some {σ : Type} (lo hi : Int) (fn : σ → Point → σ × Bool)
    (files : List (Int × List Point)) (s : σ) (h : Int) (hs : List Int)
    (ps : List Point) (hf : hlookup h files = some ps) :
    scanHours lo hi fn files s (h :: hs) =
      if (scanFilePts lo hi fn s ps).2.2 then
        scanHours lo hi fn files (scanFilePts lo hi fn s ps).1 hs
      else ((scanFilePts lo hi fn s ps).1, false) := by
  conv_lhs => rw [scanHours]
  rw [hf]

theorem scanDirs_cons {σ : Type} (lo hi : Int) (fn : σ → Point → σ × Bool)
    (s : σ) (d : TagDirEnt) (ds : List TagDirEnt) :
    scanDirs lo hi fn s (d :: ds) =
      if d.isDir then
        if (scanTagDir lo hi fn d s).2 then scanDirs lo hi fn (scanTagDir lo hi fn d s).1 ds
        else ((scanTagDir lo hi fn d s).1, false)
      else scanDirs lo hi fn s ds := by
  rw [scanDirs]

/-! ### Claim C5 -/

theorem scanFilePts_append_of_stop {σ : Type} (lo hi : Int) (fn : σ → Point → σ × Bool) :
    ∀ (ps : List Point) (s : σ), (scanFilePts lo hi fn s ps).2.2 = false →
    ∀ qs, scanFilePts lo hi fn s (ps ++ qs) = scanFilePts lo hi fn s ps
  | [], s, h => by simp [scanFilePts] at h
  | p :: ps, s, h => by
    intro qs
    rw [List.cons_append, scanFilePts_cons, scanFilePts_cons]
    rw [scanFilePts_cons] at h
    by_cases hout : p.t < lo ∨ hi < p.t
    · rw [if_pos hout] at h
      rw [if_pos hout, if_pos hout]
      exact scanFilePts_append_of_stop lo hi fn ps s h qs
    · rw [if_neg hout] at h
      rw [if_neg hout, if_neg hout]
      by_cases hc : (fn s p).2 = true
      · rw [if_pos hc] at h
        rw [if_pos hc, if_pos hc]
        have h' : (scanFilePts lo hi fn (fn s p).1 ps).2.2 = false := h
        rw [scanFilePts_append_of_stop lo hi fn ps (fn s p).1 h' qs]
      · rw [if_neg hc, if_neg hc]

theorem scanHours_append_of_stop {σ : Type} (lo hi : Int) (fn : σ → Point → σ × Bool)
    (files : List (Int × List Point)) :
    ∀ (hs : List Int) (s : σ), (scanHours lo hi fn files s hs).2 = false →
    ∀ hs', scanHours lo hi fn files s (hs ++ hs') = scanHours lo hi fn files s hs
  | [], s, h => by simp [scanHours] at h
  | h0 :: hs, s, h => by
    intro hs'
    cases hf : hlookup h0 files with
    | none =>
      rw [scanHours_cons_none lo hi fn files s h0 hs hf] at h
      rw [List.cons_append, scanHours_cons_none lo hi fn files s h0 (hs ++ hs') hf,
        scanHours_cons_none lo hi fn files s h0 hs hf]
      exact scanHours_append_of_stop lo hi fn files hs s h hs'
    | some ps =>
      rw [scanHours_cons_some lo hi fn files s h0 hs ps hf] at h
      rw [List.cons_append, scanHours_cons_some lo hi fn files s h0 (hs ++ hs') ps hf,
        scanHours_cons_some lo hi fn files s h0 hs ps hf]
      by_cases hc : (scanFilePts lo hi fn s ps).2.2 = true
      · rw [if_pos hc] at h
        rw [if_pos hc, if_pos hc]
        rw [scanHours_append_of_stop lo hi fn files hs _ h hs']
      · rw [if_neg hc, if_neg hc]

theorem scanDirs_append_of_stop {σ : Type} (lo hi : Int) (fn : σ → Point → σ × Bool) :
    ∀ (ds : List TagDirEnt) (s : σ), (scanDirs lo hi fn s ds).2 = false →
    ∀ ds', scanDirs lo hi fn s (ds ++ ds') = scanDirs lo hi fn s ds
  | [], s, h => by simp [scanDirs] at h
  | d :: ds, s, h => by
    intro ds'
    rw [scanDirs_cons] at h
    rw [List.cons_append, scanDirs_cons, scanDirs_cons]
    by_cases hd : d.isDir = true
    · rw [if_pos hd] at h
      rw [if_pos hd, if_pos hd]
      by_cases hc : (scanTagDir lo hi fn d s).2 = true
      · rw [if_pos hc] at h
        rw [if_pos hc, if_pos hc]
        rw [scanDirs_append_of_stop lo hi fn ds _ h ds']
      · rw [if_neg hc, if_neg hc]
    · rw [if_neg hd] at h
      rw [if_neg hd, if_neg hd]
      exact scanDirs_append_of_stop lo hi fn ds s h ds'

/-- C5: when the per-point callback returns false, scanning stops immediately
for the whole call: the rest of the current file, all remaining hour buckets
and all remaining tag-hash directories are never visited (appending any
further data after the stopping point leaves the outcome unchanged), and
`ScanRange` reports the early exit as a normal, error-free return. -/
theorem scanRange_early_stop_is_global_and_error_free :
    (∀ (σ : Type) (lo hi : Int) (fn : σ → Point → σ × Bool) (s : σ)
        (ps qs : List Point), (scanFilePts lo hi fn s ps).2.2 = false →
      scanFilePts lo hi fn s (ps ++ qs) = scanFilePts lo hi fn s ps) ∧
    (∀ (σ : Type) (lo hi : Int) (fn : σ → Point → σ × Bool)
        (files : List (Int × List Point)) (s : σ) (hs hs' : List Int),
      (scanHours lo hi fn files s hs).2 = false →
      scanHours lo hi fn files s (hs ++ hs') = scanHours lo hi fn files s hs) ∧
    (∀ (σ : Type) (lo hi : Int) (fn : σ → Point → σ × Bool) (s : σ)
        (ds ds' : List TagDirEnt), (scanDirs lo hi fn s ds).2 = false →
      scanDirs lo hi fn s (ds ++ ds') = scanDirs lo hi fn s ds) ∧
    (∀ (σ : Type) (lo hi : Int) (fn : σ → Point → σ × Bool) (s : σ)
        (ents : List TagDirEnt), ¬hi < lo → (scanDirs lo hi fn s ents).2 = false →
      scanRange (some ents) lo hi fn s = .ok (scanDirs lo hi fn s ents).1) :=
  ⟨fun _ lo hi fn s ps qs h => scanFilePts_append_of_stop lo hi fn ps s h qs,
   fun _ lo hi fn files s hs hs' h => scanHours_append_of_stop lo hi fn files hs s h hs',
   fun _ lo hi fn s ds ds' h => scanDirs_append_of_stop lo hi fn ds s h ds',
   fun _ lo hi fn s ents hlt _ => by
    unfold scanRange
    rw [if_neg hlt]⟩

/-- Witness for C5: a callback that stops on the very first point, run over a
store with a later point in the same file, a later hour file and a second
tag-hash directory; the outcome ignores all of them and is error-free. -/
theorem scanRange_early_stop_is_global_and_error_free_witness :
    ((scanFilePts (σ := Nat) 0 7200 (fun n _ => (n + 1, false)) 0
        [⟨10, 1, []⟩]).2.2 = false ∧
      scanFilePts (σ := Nat) 0 7200 (fun n _ => (n + 1, false)) 0
          ([⟨10, 1, []⟩] ++ [⟨20, 2, []⟩])
        = scanFilePts (σ := Nat) 0 7200 (fun n _ => (n + 1, false)) 0 [⟨10, 1, []⟩]) ∧
    ((scanHours (σ := Nat) 0 7200 (fun n _ => (n + 1, false))
        [(0, [⟨10, 1, []⟩]), (3600, [⟨3700, 2, []⟩])] 0 [0]).2 = false ∧
      scanHours (σ := Nat) 0 7200 (fun n _ => (n + 1, false))
          [(0, [⟨10, 1, []⟩]), (3600, [⟨3700, 2, []⟩])] 0 ([0] ++ [3600])
        = scanHours (σ := Nat) 0 7200 (fun n _ => (n + 1, false))
            [(0, [⟨10, 1, []⟩]), (3600, [⟨3700, 2, []⟩])] 0 [0]) ∧
    ((scanDirs (σ := Nat) 0 7200 (fun n _ => (n + 1, false)) 0
        [⟨true, [(0, [⟨10, 1, []⟩])]⟩]).2 = false ∧
      scanDirs (σ := Nat) 0 7200 (fun n _ => (n + 1, false)) 0
          ([⟨true, [(0, [⟨10, 1, []⟩])]⟩] ++ [⟨true, [(0, [⟨15, 3, []⟩])]⟩])
        = scanDirs (σ := Nat) 0 7200 (fun n _ => (n + 1, false)) 0
            [⟨true, [(0, [⟨10, 1, []⟩])]⟩]) ∧
    (¬(7200 : Int) < 0 ∧
      scanRange (σ := Nat) (some [⟨true, [(0, [⟨10, 1, []⟩])]⟩]) 0 7200
          (fun n _ => (n + 1, false)) 0
        = .ok (scanDirs (σ := Nat) 0 7200 (fun n _ => (n + 1, false)) 0
            [⟨true, [(0, [⟨10, 1, []⟩])]⟩]).1) :=
  ⟨⟨by decide, scanRange_early_stop_is_global_and_error_free.1 Nat 0 7200 _ 0 _ _ (by decide)⟩,
   ⟨by decide, scanRange_early_stop_is_global_and_error_free.2.1 Nat 0 7200 _ _ 0 _ _ (by decide)⟩,
   ⟨by decide, scanRange_early_stop_is_global_and_error_free.2.2.1 Nat 0 7200 _ 0 _ _ (by decide)⟩,
   ⟨by decide, scanRange_early_stop_is_global_and_error_free.2.2.2 Nat 0 7200 _ 0 _ (by decide)
      (by decide)⟩⟩

/-! ### Claim C6 -/

/-- C6: in a scan with `from ≤ to`, the decoded points of a segment file are
consumed as a prefix (decoding stops only at an early exit), and the points
passed to the callback are exactly the decoded points whose timestamp `t`
satisfies `from ≤ t ≤ to`, both bounds inclusive; decoded points outside the
window are skipped and never delivered. -/
theorem scanFile_delivers_exactly_in_range :
    ∀ (σ : Type) (lo hi : Int) (fn : σ → Point → σ × Bool) (s : σ)
      (ps : List Point), lo ≤ hi →
      ∃ decoded rest, ps = decoded ++ rest ∧
        (scanFilePts lo hi fn s ps).2.1
          = decoded.filter (fun p => decide (lo ≤ p.t ∧ p.t ≤ hi)) ∧
        ((scanFilePts lo hi fn s ps).2.2 = true → rest = []) := by
  intro σ lo hi fn s ps _
  induction ps generalizing s with
  | nil => exact ⟨[], [], rfl, rfl, fun _ => rfl⟩
  | cons p ps ih =>
    by_cases hout : p.t < lo ∨ hi < p.t
    · obtain ⟨decoded, rest, heq, hdel, hflag⟩ := ih s
      refine ⟨p :: decoded, rest, by rw [List.cons_append, heq], ?_, ?_⟩
      · have hpred : (decide (lo ≤ p.t ∧ p.t ≤ hi)) = false := by
          rcases hout with h | h
          · exact decide_eq_false (fun hh => absurd hh.1 (not_le.mpr h))
          · exact decide_eq_false (fun hh => absurd hh.2 (not_le.mpr h))
        rw [scanFilePts_cons, if_pos hout, List.filter_cons, hpred]
        simpa using hdel
      · intro hc
        apply hflag
        rw [scanFilePts_cons, if_pos hout] at hc
        exact hc
    · have hpred : (decide (lo ≤ p.t ∧ p.t ≤ hi)) = true := by
        push_neg at hout
        simp [hout.1, hout.2]
      by_cases hc : (fn s p).2 = true
      · obtain ⟨decoded, rest, heq, hdel, hflag⟩ := ih (fn s p).1
        refine ⟨p :: decoded, rest, by rw [List.cons_append, heq], ?_, ?_⟩
        · rw [scanFilePts_cons, if_neg hout, if_pos hc, List.filter_cons, hpred]
          simpa using hdel
        · intro hcc
          apply hflag
          rw [scanFilePts_cons, if_neg hout, if_pos hc] at hcc
          exact hcc
      · rw [Bool.not_eq_true] at hc
        refine ⟨[p], ps, rfl, ?_, ?_⟩
        · rw [scanFilePts_cons, if_neg hout, hc, if_neg (by decide), List.filter_cons, hpred]
          rfl
        · intro hcc
          rw [scanFilePts_cons, if_neg hout, hc, if_neg (by decide)] at hcc
          exact absurd hcc Bool.false_ne_true

/-- Witness for C6 on a concrete file containing points inside and outside
the window. -/
theorem scanFile_delivers_exactly_in_range_witness :
    (0 : Int) ≤ 100 ∧
    ∃ decoded rest,
      ([⟨-5, 1, []⟩, ⟨10, 2, []⟩, ⟨200, 3, []⟩] : List Point) = decoded ++ rest ∧
      (scanFilePts (σ := Nat) 0 100 (fun n _ => (n + 1, true)) 0
          [⟨-5, 1, []⟩, ⟨10, 2, []⟩, ⟨200, 3, []⟩]).2.1
        = decoded.filter (fun p => decide (0 ≤ p.t ∧ p.t ≤ 100)) ∧
      ((scanFilePts (σ := Nat) 0 100 (fun n _ => (n + 1, true)) 0
          [⟨-5, 1, []⟩, ⟨10, 2, []⟩, ⟨200, 3, []⟩]).2.2 = true → rest = []) :=
  ⟨by decide, scanFile_delivers_exactly_in_range Nat 0 100 _ 0 _ (by decide)⟩
/-! ### Retention pruner (`DeleteBeforeDay`, tffile.go lines 421-489)

The series directory is a tree of named entries: tag-hash directories contain
year entries, which contain month entries, which contain day entries.  The
boundary's calendar date in the reference timezone (`boundaryDay.In(loc).Date()`)
is abstracted as the explicit inputs `(yb, mb, db)`, since timezone/date
extraction is ambient tzdata I/O; the composite-date computation and all
filtering below it follow the source. -/

/-- A day-directory entry (leaf level of the walk). -/
structure DayEnt where
  name : String
  isDir : Bool
deriving DecidableEq, Repr

/-- A month-directory entry with its day entries. -/
structure MonthEnt where
  name : String
  isDir : Bool
  days : List DayEnt
deriving DecidableEq, Repr

/-- A year-directory entry with its month entries. -/
structure YearEnt where
  name : String
  isDir : Bool
  months : List MonthEnt
deriving DecidableEq, Repr

/-- A tag-hash directory entry with its year entries. -/
structure TagHashEnt where
  name : String
  isDir : Bool
  years : List YearEnt
deriving DecidableEq, Repr

/-- Digit-string accumulator for `atoi`. -/
def parseDigitsAux (acc : Nat) : List Char → Option Nat
  | [] => some acc
  | c :: cs => if c.isDigit then parseDigitsAux (10 * acc + (c.toNat - 48)) cs else none

/-- Parse a non-empty digit string. -/
def parseDigits : List Char → Option Nat
  | [] => none
  | cs => parseDigitsAux 0 cs

/-- Model of Go `strconv.Atoi`: optional sign, then one or more digits,
nothing else; out-of-int64-range values are an error. -/
def atoi (s : String) : Option Int :=
  let core : List Char → Bool → Option Int := fun cs neg =>
    match parseDigits cs with
    | none => none
    | some n =>
      let v : Int := if neg then -(n : Int) else (n : Int)
      if v < -(2 ^ 63) ∨ 2 ^ 63 - 1 < v then none else some v
  match s.data with
  | '+' :: cs => core cs false
  | '-' :: cs => core cs true
  | cs => core cs false

/-- Two's-complement wraparound of Go's 64-bit `int` arithmetic: the value in
`[-2^63, 2^63)` congruent to `n` mod `2^64`. -/
def wrap64 (n : Int) : Int := (n + 2 ^ 63) % 2 ^ 64 - 2 ^ 63

/-- Is a day entry deleted by the walk (tffile.go lines 469-484): it is a
directory, its name parses with `1 ≤ d ≤ 31`, and its composite date
`ymd := y*10000 + m*100 + d` — computed, as in Go, in wrapping 64-bit `int`
arithmetic — is strictly below the cut. -/
def dayDeletable (cut y m : Int) (d : DayEnt) : Bool :=
  d.isDir &&
    match atoi d.name with
    | none => false
    | some dv =>
      decide (1 ≤ dv) && decide (dv ≤ 31) &&
        decide (wrap64 (y * 10000 + m * 100 + dv) < cut)

/-- The surviving day entries of one month directory. -/
def pruneDays (cut y m : Int) (days : List DayEnt) : List DayEnt :=
  days.filter (fun d => !dayDeletable cut y m d)

/-- Walk one month entry (tffile.go lines 456-467): non-directories and
entries whose name is non-numeric or outside `1..12` are skipped. -/
def pruneMonth (cut y : Int) (me : MonthEnt) : MonthEnt :=
  if me.isDir then
    match atoi me.name with
    | none => me
    | some m =>
      if m < 1 ∨ 12 < m then me else { me with days := pruneDays cut y m me.days }
  else me

/-- Walk one year entry (tffile.go lines 443-455): non-directories and
entries whose name is non-numeric or `≤ 0` are skipped. -/
def pruneYear (cut : Int) (ye : YearEnt) : YearEnt :=
  if ye.isDir then
    match atoi ye.name with
    | none => ye
    | some y =>
      if y ≤ 0 then ye else { ye with months := ye.months.map (pruneMonth cut y) }
  else ye

/-- Walk one tag-hash entry (tffile.go lines 433-438): non-directories are
skipped. -/
def pruneTagDir (cut : Int) (te : TagHashEnt) : TagHashEnt :=
  if te.isDir then { te with years := te.years.map (pruneYear cut) } else te

/-- Model of `DeleteBeforeDay`: the boundary date components in the reference
timezone give the cut `yb*10000 + mb*100 + db` (computed, as in Go, in 64-bit
`int` arithmetic; boundary dates reachable from a `time.Time` never wrap);
every tag-hash directory of the series is walked. -/
def deleteBeforeDay (yb mb db : Int) (seriesDir : List TagHashEnt) : List TagHashEnt :=
  seriesDir.map (pruneTagDir (wrap64 (yb * 10000 + mb * 100 + db)))

/-! ### Claim C3 (corrected) -/

/-- Counterexample to C3 as stated: the year name `970298738277122415` passes
`strconv.Atoi` and the `y <= 0` check, yet in Go's 64-bit `int` arithmetic
its composite date for month `01`, day `05` wraps to `89 < 20250826`, so the
code deletes the day directory — although its mathematical composite date
`y*10000 + m*100 + d` is far above the boundary's composite, which the claim
says means it is retained. -/
theorem deleteBeforeDay_wrap_counterexample :
    atoi "970298738277122415" = some 970298738277122415 ∧
    (0 : Int) < 970298738277122415 ∧
    20250826 ≤ 970298738277122415 * 10000 + 1 * 100 + 5 ∧
    wrap64 (970298738277122415 * 10000 + 1 * 100 + 5) = 89 ∧
    dayDeletable 20250826 970298738277122415 1 ⟨"05", true⟩ = true ∧
    pruneDays 20250826 970298738277122415 1 [⟨"05", true⟩] = [] := by
  decide

theorem dayDeletable_iff (cut y m : Int) (d : DayEnt) :
    dayDeletable cut y m d = true ↔
      (d.isDir = true ∧ ∃ dv, atoi d.name = some dv ∧ 1 ≤ dv ∧ dv ≤ 31 ∧
        wrap64 (y * 10000 + m * 100 + dv) < cut) := by
  unfold dayDeletable
  cases hd : d.isDir with
  | false => simp
  | true =>
    cases ha : atoi d.name with
    | none => simp
    | some dv => simp [Bool.and_eq_true, decide_eq_true_eq, and_assoc]

/-- C3 amended: with the boundary's calendar date `(yb, mb, db)` computed in
the reference timezone and `cut = yb*10000 + mb*100 + db`, the walk removes
exactly those day directories whose parsed composite date — computed, as the
code computes it, in wrapping 64-bit `int` arithmetic — is strictly below
`cut`: a day entry survives iff it is not a directory with a parsed day in
`1..31` and wrapped composite date `< cut` (for year names small enough not
to overflow this is the plain composite date, so the boundary day and later
days are retained); and non-numeric or out-of-range year/month entries (and
non-directory tag entries) are skipped with their whole subtree untouched. -/
theorem deleteBeforeDay_exact :
    (∀ (cut y m : Int) (days : List DayEnt) (d : DayEnt),
      d ∈ pruneDays cut y m days ↔
        d ∈ days ∧ ¬(d.isDir = true ∧ ∃ dv, atoi d.name = some dv ∧ 1 ≤ dv ∧
          dv ≤ 31 ∧ wrap64 (y * 10000 + m * 100 + dv) < cut)) ∧
    (∀ (cut y m : Int) (days : List DayEnt) (d : DayEnt), d ∈ days →
      (∀ dv, atoi d.name = some dv → cut ≤ wrap64 (y * 10000 + m * 100 + dv)) →
      d ∈ pruneDays cut y m days) ∧
    (∀ (cut y : Int) (me : MonthEnt), me.isDir = false → pruneMonth cut y me = me) ∧
    (∀ (cut y : Int) (me : MonthEnt), atoi me.name = none → pruneMonth cut y me = me) ∧
    (∀ (cut y : Int) (me : MonthEnt) (m : Int), atoi me.name = some m →
      (m < 1 ∨ 12 < m) → pruneMonth cut y me = me) ∧
    (∀ (cut y : Int) (me : MonthEnt) (m : Int), me.isDir = true →
      atoi me.name = some m → ¬(m < 1 ∨ 12 < m) →
      pruneMonth cut y me = { me with days := pruneDays cut y m me.days }) ∧
    (∀ (cut : Int) (ye : YearEnt), ye.isDir = false → pruneYear cut ye = ye) ∧
    (∀ (cut : Int) (ye : YearEnt), atoi ye.name = none → pruneYear cut ye = ye) ∧
    (∀ (cut : Int) (ye : YearEnt) (y : Int), atoi ye.name = some y → y ≤ 0 →
      pruneYear cut ye = ye) ∧
    (∀ (cut : Int) (ye : YearEnt) (y : Int), ye.isDir = true →
      atoi ye.name = some y → ¬y ≤ 0 →
      pruneYear cut ye = { ye with months := ye.months.map (pruneMonth cut y) }) ∧
    (∀ (cut : Int) (te : TagHashEnt), te.isDir = false → pruneTagDir cut te = te) ∧
    (∀ (yb mb db : Int) (seriesDir : List TagHashEnt),
      deleteBeforeDay yb mb db seriesDir
        = seriesDir.map (pruneTagDir (wrap64 (yb * 10000 + mb * 100 + db)))) := by
  refine ⟨fun cut y m days d => ?_, fun cut y m days d hmem hge => ?_,
    fun cut y me h => ?_, fun cut y me h => ?_, fun cut y me m ha hout => ?_,
    fun cut y me m hd ha hin => ?_, fun cut ye h => ?_, fun cut ye h => ?_,
    fun cut ye y ha hy => ?_, fun cut ye y hd ha hy => ?_, fun cut te h => ?_,
    fun yb mb db seriesDir => rfl⟩
  · rw [pruneDays, List.mem_filter]
    constructor
    · rintro ⟨h1, h2⟩
      refine ⟨h1, fun hprop => ?_⟩
      rw [Bool.not_eq_true'] at h2
      rw [(dayDeletable_iff cut y m d).mpr hprop] at h2
      exact absurd h2 (by decide)
    · rintro ⟨h1, h2⟩
      refine ⟨h1, ?_⟩
      rw [Bool.not_eq_true']
      cases hb : dayDeletable cut y m d with
      | false => rfl
      | true => exact absurd ((dayDeletable_iff cut y m d).mp hb) h2
  · rw [pruneDays, List.mem_filter]
    refine ⟨hmem, ?_⟩
    rw [Bool.not_eq_true']
    cases hb : dayDeletable cut y m d with
    | false => rfl
    | true =>
      obtain ⟨_, dv, ha, _, _, hlt⟩ := (dayDeletable_iff cut y m d).mp hb
      exact absurd hlt (not_lt.mpr (hge dv ha))
  · simp [pruneMonth, h]
  · cases hd : me.isDir <;> simp [pruneMonth, h, hd]
  · cases hd : me.isDir <;> simp [pruneMonth, ha, hd, hout]
  · simp [pruneMonth, hd, ha, hin]
  · simp [pruneYear, h]
  · cases hd : ye.isDir <;> simp [pruneYear, h, hd]
  · cases hd : ye.isDir <;> simp [pruneYear, ha, hd, hy]
  · simp [pruneYear, hd, ha, hy]
  · simp [pruneTagDir, h]

/-- Witness for C3: with boundary 2025-08-26 the day directory `26` is
retained, and an out-of-range month directory `13` is skipped untouched. -/
theorem deleteBeforeDay_exact_witness :
    (⟨"26", true⟩ : DayEnt) ∈ ([⟨"25", true⟩, ⟨"26", true⟩] : List DayEnt) ∧
    (⟨"26", true⟩ : DayEnt) ∈ pruneDays 20250826 2025 8 [⟨"25", true⟩, ⟨"26", true⟩] ∧
    atoi "13" = some 13 ∧
    pruneMonth 20250826 2025 ⟨"13", true, [⟨"01", true⟩]⟩ = ⟨"13", true, [⟨"01", true⟩]⟩ :=
  ⟨by decide,
   deleteBeforeDay_exact.2.1 20250826 2025 8 [⟨"25", true⟩, ⟨"26", true⟩]
     ⟨"26", true⟩ (by decide)
     (fun dv h => by
       have h26 : atoi "26" = some 26 := by decide
       rw [h26] at h
       injection h with h2
       rw [← h2]
       decide),
   by decide,
   deleteBeforeDay_exact.2.2.2.2.1 20250826 2025 ⟨"13", true, [⟨"01", true⟩]⟩ 13
     (by decide) (Or.inr (by decide))⟩

/-! ### Series store (`TSStore`, tsstore.go) and router writer installation

The router map (`sync.Map`, series name → router) and each router's writer
map (mutex-guarded, tag hash → writer) are association lists; instances are
identified by numeric ids.  Every modelled step below is one atomic critical
section of the source (a mutex-held block, or one `sync.Map` operation), so a
concurrent execution is an interleaving of these steps. -/

/-- Model of the mutex-held section of `Router.Append` (tffile.go lines
299-305): look up the writer for a tag hash, creating and installing `fresh`
only when absent.  Returns the writer used and the map afterwards. -/
def routerEnsureWriter (fresh : Nat) (key : String) (ws : List (String × Nat)) :
    Nat × List (String × Nat) :=
  match alookup key ws with
  | some w => (w, ws)
  | none => (fresh, (key, fresh) :: ws)

/-- Model of `sync.Map.LoadOrStore` (tsstore.go line 48): atomically return
the existing value, or install the given one.  The third component is Go's
`loaded` flag. -/
def loadOrStore (series : String) (r : Nat) (m : List (String × Nat)) :
    Nat × List (String × Nat) × Bool :=
  match alookup series m with
  | some w => (w, m, true)
  | none => (r, (series, r) :: m, false)

/-- Model of `TSStore.EnsureRouter` (tsstore.go lines 39-54) with its two
atomic map steps made explicit: `loadMap` is the router map at the `Load`
step, `storeMap` the (possibly concurrently grown) map at the `LoadOrStore`
step.  Returns the router used, the map afterwards, and the ids of routers
that were constructed, closed and discarded (the loser of a race). -/
def ensureRouterAt (fresh : Nat) (series : String) (closed : Bool)
    (loadMap storeMap : List (String × Nat)) :
    Except String (Nat × List (String × Nat) × List Nat) :=
  if closed then .error "TSStore closed"
  else
    match alookup series loadMap with
    | some r => .ok (r, storeMap, [])
    | none =>
      let q := loadOrStore series fresh storeMap
      .ok (q.1, q.2.1, if q.2.2 then [fresh] else [])

/-- Sequential `TSStore` state: the closed flag, the router map and a source
of fresh router ids. -/
structure StoreSt where
  closed : Bool
  routers : List (String × Nat)
  nextId : Nat
deriving DecidableEq, Repr

/-- Model of `TSStore.EnsureRouter` in the absence of interference between
its `Load` and `LoadOrStore` (both see `s.routers`). -/
def ensureRouter (series : String) (s : StoreSt) : Except String (Nat × StoreSt) :=
  if s.closed then .error "TSStore closed"
  else
    match alookup series s.routers with
    | some r => .ok (r, s)
    | none =>
      .ok (s.nextId, { s with
          routers := (series, s.nextId) :: s.routers,
          nextId := s.nextId + 1 })

/-- Model of `TSStore.Append` (tsstore.go lines 57-63): ensure the router and
delegate.  The delegated writer I/O is outside the frame of these claims and
is modelled as succeeding. -/
def storeAppend (series : String) (p : Point) (s : StoreSt) : Except String StoreSt :=
  match ensureRouter series s with
  | .error e => .error e
  | .ok q => .ok q.2

/-- Model of `TSStore.AppendVec` (tsstore.go lines 67-74): one point per
axis, first error aborts; an empty axes map performs no append at all. -/
def appendVec (base : String) (t : Int) (axes : List (String × Int))
    (tags : List (String × String)) (s : StoreSt) : Except String StoreSt :=
  match axes with
  | [] => .ok s
  | (axis, v) :: rest =>
    match storeAppend (base ++ "." ++ axis) ⟨t, v, tags⟩ s with
    | .error e => .error e
    | .ok s2 => appendVec base t rest tags s2

/-- Go map assignment `m[k] = v`: overwrite the entry if present, insert
otherwise. -/
def mapSet (m : List (String × String)) (k v : String) : List (String × String) :=
  if (alookup k m).isSome then
    m.map (fun kv => if kv.1 = k then (k, v) else kv)
  else (k, v) :: m

/-- Model of `TSStore.AppendEvent` (tsstore.go lines 77-83): a nil tags map
is replaced by an empty one, then `tags["kind"] = kind` mutates the map in
place, and a value-1 point carrying that same map is appended to
`events.count`.  Returns the append result, the appended point, and the
caller's map as it stands after the call (the same object the point holds). -/
def appendEvent (t : Int) (kind : String) (tags : Option (List (String × String)))
    (s : StoreSt) : Except String StoreSt × Point × List (String × String) :=
  let tg := mapSet (tags.getD []) "kind" kind
  (storeAppend "events.count" ⟨t, 1, tg⟩ s, ⟨t, 1, tg⟩, tg)

/-- First close error among the routers in iteration order (tsstore.go lines
104-109 keep only the first non-nil error while closing every router). -/
def firstCloseErr (closeRes : Nat → Option String) : List (String × Nat) → Option String
  | [] => none
  | (_, r) :: rest =>
    match closeRes r with
    | some e => some e
    | none => firstCloseErr closeRes rest

/-- Model of `TSStore.Close` (tsstore.go lines 96-111): under the lock, a
already-closed store returns nil immediately; otherwise the flag is set and
every router is closed (`closeRes` gives each router's Close outcome).  The
third component lists the routers actually closed by this call. -/
def storeClose (closeRes : Nat → Option String) (s : StoreSt) :
    Option String × StoreSt × List Nat :=
  if s.closed then (none, s, [])
  else
    (firstCloseErr closeRes s.routers, { s with closed := true },
     s.routers.map Prod.snd)

/-! ### Helper lemmas on association maps -/

theorem alookup_none_not_mem {β : Type} (k : String) (m : List (String × β))
    (h : alookup k m = none) : k ∉ m.map Prod.fst := by
  induction m with
  | nil => simp
  | cons kv rest ih =>
    obtain ⟨k', v⟩ := kv
    simp only [alookup] at h
    by_cases hk : k = k'
    · rw [if_pos hk] at h
      exact absurd h (by simp)
    · rw [if_neg hk] at h
      simp only [List.map_cons, List.mem_cons]
      rintro (h1 | h1)
      · exact hk h1
      · exact ih h h1

theorem routerEnsureWriter_preserves (fresh : Nat) (key k : String) (w : Nat)
    (ws : List (String × Nat)) (h : alookup k ws = some w) :
    alookup k (routerEnsureWriter fresh key ws).2 = some w := by
  unfold routerEnsureWriter
  cases hk : alookup key ws with
  | some w' => exact h
  | none =>
    have hne : k ≠ key := fun he => by
      rw [he, hk] at h
      exact Option.noConfusion h
    show (if k = key then some fresh else alookup k ws) = some w
    rw [if_neg hne]
    exact h

theorem foldl_installed_stable (k : String) (w : Nat) :
    ∀ (ops m : List (String × Nat)), alookup k m = some w →
      alookup k (ops.foldl (fun acc op => (routerEnsureWriter op.2 op.1 acc).2) m) = some w
  | [], _, h => h
  | op :: ops, m, h =>
    foldl_installed_stable k w ops _ (routerEnsureWriter_preserves op.2 op.1 k w m h)

theorem routerEnsureWriter_nodup (fresh : Nat) (key : String) (ws : List (String × Nat))
    (h : (ws.map Prod.fst).Nodup) :
    (((routerEnsureWriter fresh key ws).2).map Prod.fst).Nodup := by
  unfold routerEnsureWriter
  cases hk : alookup key ws with
  | some w => exact h
  | none =>
    show (((key, fresh) :: ws).map Prod.fst).Nodup
    simp only [List.map_cons, List.nodup_cons]
    exact ⟨alookup_none_not_mem key ws hk, h⟩

/-! ### Claim C8 -/

/-- C8: each map installs at most one instance per key.  An installed writer
is returned as-is (the map is never changed, so the instance is never
replaced); `EnsureRouter`'s fast path returns the installed router; when the
`Load` misses but a concurrent caller installed a router before the
`LoadOrStore`, the already-installed router is returned and used while the
loser's freshly built instance is closed and discarded, never installed; a
true first access installs the fresh instance; an installed entry survives
any sequence of further install operations unchanged; and key-distinctness
of the writer map is preserved, so there is never more than one entry per
key. -/
theorem at_most_one_instance_per_key :
    (∀ (fresh : Nat) (key : String) (ws : List (String × Nat)) (w : Nat),
      alookup key ws = some w → routerEnsureWriter fresh key ws = (w, ws)) ∧
    (∀ (fresh : Nat) (series : String) (loadMap storeMap : List (String × Nat)) (r : Nat),
      alookup series loadMap = some r →
      ensureRouterAt fresh series false loadMap storeMap = .ok (r, storeMap, [])) ∧
    (∀ (fresh : Nat) (series : String) (loadMap storeMap : List (String × Nat)) (w : Nat),
      alookup series loadMap = none → alookup series storeMap = some w →
      ensureRouterAt fresh series false loadMap storeMap = .ok (w, storeMap, [fresh])) ∧
    (∀ (fresh : Nat) (series : String) (loadMap storeMap : List (String × Nat)),
      alookup series loadMap = none → alookup series storeMap = none →
      ensureRouterAt fresh series false loadMap storeMap
        = .ok (fresh, (series, fresh) :: storeMap, [])) ∧
    (∀ (k : String) (w : Nat) (m ops : List (String × Nat)), alookup k m = some w →
      alookup k (ops.foldl (fun acc op => (routerEnsureWriter op.2 op.1 acc).2) m)
        = some w) ∧
    (∀ (fresh : Nat) (key : String) (ws : List (String × Nat)), (ws.map Prod.fst).Nodup →
      (((routerEnsureWriter fresh key ws).2).map Prod.fst).Nodup) := by
  refine ⟨fun fresh key ws w h => ?_, fun fresh series lm sm r h => ?_,
    fun fresh series lm sm w h1 h2 => ?_, fun fresh series lm sm h1 h2 => ?_,
    fun k w m ops h => foldl_installed_stable k w ops m h,
    fun fresh key ws h => routerEnsureWriter_nodup fresh key ws h⟩
  · unfold routerEnsureWriter
    rw [h]
  · unfold ensureRouterAt
    rw [h]
    rfl
  · unfold ensureRouterAt loadOrStore
    rw [h1, h2]
    rfl
  · unfold ensureRouterAt loadOrStore
    rw [h1, h2]
    rfl

/-- Witness for C8 at concrete maps: a present key is returned unchanged, a
raced first access returns the winner and discards the loser, and
key-distinctness is preserved on a first install. -/
theorem at_most_one_instance_per_key_witness :
    (alookup "w1" [("w1", 5)] = some 5 ∧
      routerEnsureWriter 9 "w1" [("w1", 5)] = (5, [("w1", 5)])) ∧
    (alookup "players" ([] : List (String × Nat)) = none ∧
      alookup "players" [("players", 3)] = some 3 ∧
      ensureRouterAt 7 "players" false [] [("players", 3)]
        = .ok (3, [("players", 3)], [7])) ∧
    (alookup "events" [("players", 3)] = none ∧
      alookup "w2" [("w1", 5)] = none ∧
      (([("w1", 5)] : List (String × Nat)).map Prod.fst).Nodup ∧
      (((routerEnsureWriter 9 "w2" [("w1", 5)]).2).map Prod.fst).Nodup ∧
      alookup "w1" ((([("w2", 9), ("w1", 11)] : List (String × Nat)).foldl
        (fun acc op => (routerEnsureWriter op.2 op.1 acc).2) [("w1", 5)]))
        = some 5) :=
  ⟨⟨by decide, at_most_one_instance_per_key.1 9 "w1" [("w1", 5)] 5 (by decide)⟩,
   ⟨by decide, by decide,
    at_most_one_instance_per_key.2.2.1 7 "players" [] [("players", 3)] 3
      (by decide) (by decide)⟩,
   ⟨by decide, by decide, by decide,
    at_most_one_instance_per_key.2.2.2.2.2 9 "w2" [("w1", 5)] (by decide),
    at_most_one_instance_per_key.2.2.2.2.1 "w1" 5 [("w1", 5)]
      [("w2", 9), ("w1", 11)] (by decide)⟩⟩

/-! ### Claim C7 (corrected) -/

/-- A store on which `Close()` has already returned. -/
def closedStore : StoreSt := { closed := true, routers := [], nextId := 0 }

/-- Counterexample to C7 as stated: on a closed store, `AppendVec` with an
empty axes map performs zero `Append` calls and returns nil — it does not
fail with a "closed" error. -/
theorem appendVec_empty_ok_after_close :
    closedStore.closed = true ∧
    appendVec "players" 0 [] [] closedStore = .ok closedStore ∧
    ∀ e : String, appendVec "players" 0 [] [] closedStore ≠ .error e :=
  ⟨rfl, rfl, fun _ h => Except.noConfusion h⟩

/-- C7 amended: after `TSStore.Close()` has returned, every subsequent
`EnsureRouter` call fails with a "closed" error instead of creating or
returning a router — and therefore `Append`, `AppendEvent`, and `AppendVec`
whenever it has at least one axis, also fail — and a second `Close()` call
returns no error and performs no further work (the state is unchanged and no
router is closed again). -/
theorem store_closed_fails_and_close_idempotent :
    (∀ (s : StoreSt) (series : String), s.closed = true →
      ensureRouter series s = .error "TSStore closed") ∧
    (∀ (s : StoreSt) (series : String) (p : Point), s.closed = true →
      storeAppend series p s = .error "TSStore closed") ∧
    (∀ (s : StoreSt) (t : Int) (kind : String)
        (tags : Option (List (String × String))), s.closed = true →
      (appendEvent t kind tags s).1 = .error "TSStore closed") ∧
    (∀ (s : StoreSt) (base : String) (t : Int) (axes : List (String × Int))
        (tags : List (String × String)), s.closed = true → axes ≠ [] →
      appendVec base t axes tags s = .error "TSStore closed") ∧
    (∀ (closeRes : Nat → Option String) (s : StoreSt),
      ((storeClose closeRes s).2.1).closed = true ∧
      storeClose closeRes ((storeClose closeRes s).2.1)
        = (none, (storeClose closeRes s).2.1, [])) := by
  refine ⟨fun s series h => ?_, fun s series p h => ?_, fun s t kind tags h => ?_,
    fun s base t axes tags h hne => ?_, fun closeRes s => ?_⟩
  · simp [ensureRouter, h]
  · simp [storeAppend, ensureRouter, h]
  · simp [appendEvent, storeAppend, ensureRouter, h]
  · cases axes with
    | nil => exact absurd rfl hne
    | cons a rest =>
      obtain ⟨axis, v⟩ := a
      simp [appendVec, storeAppend, ensureRouter, h]
  · by_cases hc : s.closed = true
    · constructor
      · simp [storeClose, hc]
      · simp [storeClose, hc]
    · have hc' : s.closed = false := by
        cases hcl : s.closed
        · rfl
        · exact absurd hcl hc
      constructor
      · simp [storeClose, hc']
      · simp [storeClose, hc']

/-- Witness for the amended C7 on a concrete closed store. -/
theorem store_closed_fails_and_close_idempotent_witness :
    closedStore.closed = true ∧
    ensureRouter "players" closedStore = .error "TSStore closed" ∧
    storeAppend "players" ⟨0, 1, []⟩ closedStore = .error "TSStore closed" ∧
    (appendEvent 0 "death" (some [("pid", "1")]) closedStore).1
      = .error "TSStore closed" ∧
    (([("x", 5)] : List (String × Int)) ≠ []) ∧
    appendVec "players" 0 [("x", 5)] [] closedStore = .error "TSStore closed" ∧
    ((storeClose (fun _ => none) closedStore).2.1).closed = true ∧
    storeClose (fun _ => none) ((storeClose (fun _ => none) closedStore).2.1)
      = (none, (storeClose (fun _ => none) closedStore).2.1, []) :=
  ⟨rfl,
   store_closed_fails_and_close_idempotent.1 closedStore "players" rfl,
   store_closed_fails_and_close_idempotent.2.1 closedStore "players" ⟨0, 1, []⟩ rfl,
   store_closed_fails_and_close_idempotent.2.2.1 closedStore 0 "death"
     (some [("pid", "1")]) rfl,
   by decide,
   store_closed_fails_and_close_idempotent.2.2.2.1 closedStore "players" 0
     [("x", 5)] [] rfl (by decide),
   (store_closed_fails_and_close_idempotent.2.2.2.2 (fun _ => none) closedStore).1,
   (store_closed_fails_and_close_idempotent.2.2.2.2 (fun _ => none) closedStore).2⟩

/-! ### Claim C10 -/

theorem alookup_map_setKey (k v : String) :
    ∀ m : List (String × String), (alookup k m).isSome = true →
      alookup k (m.map (fun kv => if kv.1 = k then (k, v) else kv)) = some v := by
  intro m
  induction m with
  | nil => intro h; simp [alookup] at h
  | cons kv rest ih =>
    intro h
    obtain ⟨k', v'⟩ := kv
    simp only [List.map_cons]
    by_cases h1 : k' = k
    · rw [if_pos h1]
      show (if k = k then some v else _) = some v
      rw [if_pos rfl]
    · rw [if_neg h1]
      have hne : ¬k = k' := fun he => h1 he.symm
      show (if k = k' then some v' else _) = some v
      rw [if_neg hne]
      apply ih
      simp only [alookup] at h
      rw [if_neg hne] at h
      exact h

theorem alookup_map_setKey_other (k v k' : String) (hk : k' ≠ k) :
    ∀ m : List (String × String),
      alookup k' (m.map (fun kv => if kv.1 = k then (k, v) else kv)) = alookup k' m := by
  intro m
  induction m with
  | nil => rfl
  | cons kv rest ih =>
    obtain ⟨k0, v0⟩ := kv
    simp only [List.map_cons]
    by_cases h1 : k0 = k
    · rw [if_pos h1]
      have hne : ¬k' = k0 := fun he => hk (he.trans h1)
      show (if k' = k then some v else _) = if k' = k0 then some v0 else _
      rw [if_neg hk, if_neg hne]
      exact ih
    · rw [if_neg h1]
      show (if k' = k0 then some v0 else _) = if k' = k0 then some v0 else _
      by_cases h2 : k' = k0
      · rw [if_pos h2, if_pos h2]
      · rw [if_neg h2, if_neg h2]
        exact ih

theorem alookup_mapSet_self (m : List (String × String)) (k v : String) :
    alookup k (mapSet m k v) = some v := by
  unfold mapSet
  by_cases h : (alookup k m).isSome = true
  · rw [if_pos h]
    exact alookup_map_setKey k v m h
  · rw [if_neg h]
    show (if k = k then some v else alookup k m) = some v
    rw [if_pos rfl]

theorem alookup_mapSet_other (m : List (String × String)) (k v k' : String)
    (hk : k' ≠ k) : alookup k' (mapSet m k v) = alookup k' m := by
  unfold mapSet
  by_cases h : (alookup k m).isSome = true
  · rw [if_pos h]
    exact alookup_map_setKey_other k v k' hk m
  · rw [if_neg h]
    show (if k' = k then some v else alookup k' m) = alookup k' m
    rw [if_neg hk]

/-- C10: for a non-nil tags map, `AppendEvent` mutates the caller's map in
place by setting `tags["kind"] = kind` — overwriting any existing "kind"
entry while leaving every other key unchanged — before appending, and the
appended point carries that same map; the mutation is visible to the caller
after the call returns. -/
theorem appendEvent_mutates_caller_map :
    ∀ (t : Int) (kind : String) (tags : List (String × String)) (s : StoreSt),
      (appendEvent t kind (some tags) s).2.2 = mapSet tags "kind" kind ∧
      (appendEvent t kind (some tags) s).2.1.tags
        = (appendEvent t kind (some tags) s).2.2 ∧
      alookup "kind" ((appendEvent t kind (some tags) s).2.2) = some kind ∧
      (∀ k, k ≠ "kind" →
        alookup k ((appendEvent t kind (some tags) s).2.2) = alookup k tags) :=
  fun _ kind tags _ =>
    ⟨rfl, rfl, alookup_mapSet_self tags "kind" kind,
     fun k hk => alookup_mapSet_other tags "kind" kind k hk⟩

/-- Witness for C10: a caller map that already has a "kind" entry is
overwritten in place; the other key is untouched. -/
theorem appendEvent_mutates_caller_map_witness :
    (appendEvent 0 "death" (some [("kind", "old"), ("pid", "1")]) closedStore).2.2
      = [("kind", "death"), ("pid", "1")] ∧
    alookup "kind"
      ((appendEvent 0 "death" (some [("kind", "old"), ("pid", "1")]) closedStore).2.2)
      = some "death" ∧
    ("pid" : String) ≠ "kind" ∧
    alookup "pid"
      ((appendEvent 0 "death" (some [("kind", "old"), ("pid", "1")]) closedStore).2.2)
      = alookup "pid" [("kind", "old"), ("pid", "1")] :=
  ⟨by decide,
   (appendEvent_mutates_caller_map 0 "death" [("kind", "old"), ("pid", "1")]
     closedStore).2.2.1,
   by decide,
   (appendEvent_mutates_caller_map 0 "death" [("kind", "old"), ("pid", "1")]
     closedStore).2.2.2 "pid" (by decide)⟩

end SevenTS
